import Mathlib

/-!
Shallow embedding of the core logic of `work_time_calculator.py`:
the `TimeParser` parsing layer, the `TimeInterval` / `DaySchedule`
domain model, and the milestone projection of `GuiController`.

Python strings are modelled as `List Char` (ASCII fragment); Python
`datetime` moments are modelled as integer seconds (`day * 86400 +
seconds-of-day`), which is exact because every moment in the program has
`microsecond = 0`.  Python integers are Lean `Int`; Python `%` on a
positive modulus agrees with `Int.emod`.
-/

/-! ## Python string primitives -/

/-- ASCII whitespace characters recognised by Python `str.strip()`. -/
def isSpace (c : Char) : Bool :=
  c == ' ' || c == '\t' || c == '\n' || c == '\r' ||
    c == Char.ofNat 11 || c == Char.ofNat 12

/-- Python `str.strip()`: drop whitespace from both ends. -/
def pyStrip (l : List Char) : List Char :=
  ((l.dropWhile isSpace).reverse.dropWhile isSpace).reverse

/-- Value of a decimal digit character, if it is one. -/
def digitVal (c : Char) : Option Nat :=
  if '0' ≤ c ∧ c ≤ '9' then some (c.toNat - 48) else none

/-- Tail of Python `int()` digit parsing: after a first digit has been
consumed into `acc`, consume further digits, allowing a single
underscore between two digits (CPython's grammar for integer literals
accepted by `int`). -/
def digitsVal (acc : Nat) : List Char → Option Nat
  | [] => some acc
  | c :: cs =>
    if c == '_' then
      match cs with
      | [] => none
      | d :: cs2 =>
        match digitVal d with
        | some v => digitsVal (acc * 10 + v) cs2
        | none => none
    else
      match digitVal c with
      | some v => digitsVal (acc * 10 + v) cs
      | none => none

/-- Digit-string part of Python `int()`: at least one digit, underscores
only between digits. -/
def pyDigits? : List Char → Option Nat
  | [] => none
  | c :: cs =>
    match digitVal c with
    | some v => digitsVal v cs
    | none => none

/-- Python `int(str)` on the ASCII fragment: optional surrounding
whitespace, optional single sign, then digits. -/
def pyInt? (l : List Char) : Option Int :=
  match pyStrip l with
  | [] => none
  | c :: rest =>
    if c == '+' then (pyDigits? rest).map (fun n => (n : Int))
    else if c == '-' then (pyDigits? rest).map (fun n => -(n : Int))
    else (pyDigits? (c :: rest)).map (fun n => (n : Int))

/-- Python `str.split(sep)` for a one-character separator: always
returns at least one (possibly empty) piece. -/
def splitCh (sep : Char) : List Char → List (List Char)
  | [] => [[]]
  | c :: cs =>
    if c == sep then [] :: splitCh sep cs
    else
      match splitCh sep cs with
      | [] => [[c]]
      | r :: rs => (c :: r) :: rs

/-- Decimal digits of `n`, most significant first (fuelled so that it
reduces definitionally; `natToDigits` supplies enough fuel). -/
def natToDigitsAux : Nat → Nat → List Char
  | 0, _ => []
  | fuel + 1, n =>
    if n < 10 then [Char.ofNat (48 + n)]
    else natToDigitsAux fuel (n / 10) ++ [Char.ofNat (48 + n % 10)]

/-- Decimal rendering of a natural number, as Python `str(n)` / `"{:d}"`. -/
def natToDigits (n : Nat) : List Char := natToDigitsAux (n + 1) n

/-- Python `"{:02d}"`: decimal rendering zero-padded to width two. -/
def pad2 (n : Nat) : List Char :=
  if n < 10 then '0' :: natToDigits n else natToDigits n

/-! ## TimeParser -/

/-- Wall-clock time of day, as Python `datetime.time` restricted to whole
seconds (`parse_time` only ever builds in-range values). -/
structure ClockTime where
  hour : Nat
  minute : Nat
  second : Nat
deriving DecidableEq, Repr

/-- The `\s*(am|pm)\s*$` detection, removal and re-strip performed at the
top of `TimeParser.parse_time`.  Returns `some true` for a `pm` marker,
`some false` for `am`, `none` when the regex does not match; the second
component is the remaining (stripped) text. -/
def stripAmPm (l : List Char) : Option Bool × List Char :=
  match l.reverse.dropWhile isSpace with
  | m :: a :: rest =>
    if (m == 'm' || m == 'M') && (a == 'a' || a == 'A') then
      (some false, pyStrip rest.reverse)
    else if (m == 'm' || m == 'M') && (a == 'p' || a == 'P') then
      (some true, pyStrip rest.reverse)
    else (none, l)
  | _ => (none, l)

/-- Component extraction of `parse_time`: `hh = int(parts[0])`, missing
or empty minute/second components default to `0`. -/
def timeComponents : List (List Char) → Option (Int × Int × Int)
  | [p0] =>
    (pyInt? p0).map (fun h => (h, 0, 0))
  | [p0, p1] =>
    match pyInt? p0, (if p1 = [] then some 0 else pyInt? p1) with
    | some h, some m => some (h, m, 0)
    | _, _ => none
  | [p0, p1, p2] =>
    match pyInt? p0, (if p1 = [] then some 0 else pyInt? p1),
        (if p2 = [] then some 0 else pyInt? p2) with
    | some h, some m, some s => some (h, m, s)
    | _, _, _ => none
  | _ => none

/-- Range checks and am/pm hour adjustment at the end of
`TimeParser.parse_time` (`ampm = some true` means pm). -/
def parse_time_fields (ampm : Option Bool) (hh mm ss : Int) :
    Except String ClockTime :=
  if ¬(0 ≤ mm ∧ mm < 60) ∨ ¬(0 ≤ ss ∧ ss < 60) then
    .error "Minutes/seconds out of range"
  else
    match ampm with
    | some isPm =>
      if ¬(1 ≤ hh ∧ hh < 13) then
        .error "Hour out of range for 12-hour time"
      else if isPm then
        .ok ⟨(if hh = 12 then (12 : Int) else hh + 12).toNat, mm.toNat, ss.toNat⟩
      else
        .ok ⟨(if hh = 12 then (0 : Int) else hh).toNat, mm.toNat, ss.toNat⟩
    | none =>
      if ¬(0 ≤ hh ∧ hh < 24) then
        .error "Hour out of range for 24-hour time"
      else
        .ok ⟨hh.toNat, mm.toNat, ss.toNat⟩

/-- `TimeParser.parse_time`. -/
def parse_time (text : String) : Except String ClockTime :=
  let s := pyStrip text.data
  if s = [] then .error "Empty time"
  else
    let ap := stripAmPm s
    let parts := splitCh ':' ap.2
    if 3 < parts.length then .error "Too many ':' in time"
    else
      match timeComponents parts with
      | none => .error "Non-numeric time component"
      | some (hh, mm, ss) => parse_time_fields ap.1 hh mm ss

/-- Component extraction of `parse_duration`: one to three components,
no empty-string defaults. -/
def durComponents : List (List Char) → Option (Int × Int × Int)
  | [p0] => (pyInt? p0).map (fun h => (h, 0, 0))
  | [p0, p1] =>
    match pyInt? p0, pyInt? p1 with
    | some h, some m => some (h, m, 0)
    | _, _ => none
  | [p0, p1, p2] =>
    match pyInt? p0, pyInt? p1, pyInt? p2 with
    | some h, some m, some s => some (h, m, s)
    | _, _, _ => none
  | _ => none

/-- `TimeParser.parse_duration`. -/
def parse_duration (text : String) : Except String Int :=
  let s := pyStrip text.data
  if s = [] then .error "Empty duration"
  else
    let parts := splitCh ':' s
    if 3 < parts.length then .error "Too many ':' in duration"
    else
      match durComponents parts with
      | none => .error "Non-numeric duration component"
      | some (h, m, sec) =>
        if h < 0 ∨ ¬(0 ≤ m ∧ m < 60) ∨ ¬(0 ≤ sec ∧ sec < 60) then
          .error "Invalid duration values"
        else
          .ok (h * 3600 + m * 60 + sec)

/-- `TimeParser.format_hms`. -/
def format_hms (seconds : Int) : String :=
  String.mk ((if seconds < 0 then ['-'] else []) ++
    (pad2 (seconds.natAbs / 3600) ++
      (':' :: (pad2 (seconds.natAbs % 3600 / 60) ++
        (':' :: pad2 (seconds.natAbs % 60))))))

/-- Whether an `Except` computation succeeded. -/
def isOkE {α : Type} : Except String α → Bool
  | .ok _ => true
  | .error _ => false

/-! ## Domain model -/

/-- Seconds since midnight of a `ClockTime`. -/
def ClockTime.toSecs (t : ClockTime) : Int :=
  (t.hour : Int) * 3600 + (t.minute : Int) * 60 + (t.second : Int)

/-- Python `time` ordering (lexicographic on hour, minute, second), as a
boolean `≤` used for sorting. -/
def timeLe (a b : ClockTime) : Bool :=
  if a.hour ≠ b.hour then decide (a.hour < b.hour)
  else if a.minute ≠ b.minute then decide (a.minute < b.minute)
  else decide (a.second ≤ b.second)

/-- `datetime.combine(on_date, t)` as integer seconds: days are an
abstract day index, one day is 86400 seconds. -/
def combine (d : Nat) (t : ClockTime) : Int :=
  (d : Int) * 86400 + t.toSecs

/-- `TimeInterval`: a start time and an optional end time (`none` is an
open interval, the Python field is called `end`). -/
structure TimeInterval where
  start : ClockTime
  endT : Option ClockTime
deriving DecidableEq, Repr

/-- `TimeInterval.is_open`. -/
def TimeInterval.is_open (it : TimeInterval) : Bool := it.endT.isNone

/-- `datetime.combine(on_date, self.start)` inside `duration_seconds`
and `validate`. -/
def TimeInterval.effective_start (it : TimeInterval) (d : Nat) : Int :=
  combine d it.start

/-- `now_dt if self.is_open() else datetime.combine(on_date, self.end)`. -/
def TimeInterval.effective_end (it : TimeInterval) (d : Nat) (now_dt : Int) : Int :=
  match it.endT with
  | none => now_dt
  | some e => combine d e

/-- The message raised/emitted for a non-positive resolved duration. -/
def endMsgStr : String :=
  "End must be after Start within the same day (no cross-midnight)."

/-- The collection-level message for more than one open interval. -/
def openMsgStr : String := "Only one open interval is allowed."

/-- The collection-level message for overlapping intervals. -/
def overlapMsgStr : String := "Intervals overlap after sorting."

/-- `TimeInterval.duration_seconds`: fails when the resolved effective
end is not strictly after the resolved effective start. -/
def TimeInterval.duration_seconds (it : TimeInterval) (on_date : Nat)
    (now_dt : Int) : Except String Int :=
  let start_dt := it.effective_start on_date
  let end_dt := it.effective_end on_date now_dt
  if end_dt ≤ start_dt then .error endMsgStr
  else .ok (end_dt - start_dt)

/-- Stable insertion into a sorted list (used to model Python's stable
sort: an element goes before the first entry it is `le` to). -/
def insertLe {α : Type} (le : α → α → Bool) (a : α) : List α → List α
  | [] => [a]
  | b :: bs => if le a b then a :: b :: bs else b :: insertLe le a bs

/-- Stable sort by the boolean preorder `le` (Python `sorted` is stable;
so is this right-to-left insertion sort). -/
def sortLe {α : Type} (le : α → α → Bool) : List α → List α
  | [] => []
  | a :: as => insertLe le a (sortLe le as)

/-- `DaySchedule`: a date, intervals, and the target in seconds. -/
structure DaySchedule where
  on_date : Nat
  intervals : List TimeInterval
  target_seconds : Int
deriving Repr

/-- `DaySchedule.sorted_intervals`: sorted by start time. -/
def DaySchedule.sorted_intervals (s : DaySchedule) : List TimeInterval :=
  sortLe (fun a b => timeLe a.start b.start) s.intervals

/-- The `(start_dt, end_dt)` pair built for one interval in `validate`. -/
def effectivePair (d : Nat) (now_dt : Int) (it : TimeInterval) : Int × Int :=
  (it.effective_start d, it.effective_end d now_dt)

/-- The overlap walk of `DaySchedule.validate`: over the pairs sorted by
effective start, emit one message at the first adjacent pair whose start
is strictly before the previous end, then stop (`break`). -/
def overlapScan : List (Int × Int) → List String
  | [] => []
  | [_] => []
  | a :: b :: rest =>
    if b.1 < a.2 then [overlapMsgStr] else overlapScan (b :: rest)

/-- The `effective` list of `validate` after its `effective.sort`. -/
def sortedEffective (s : DaySchedule) (now_dt : Int) : List (Int × Int) :=
  sortLe (fun p q => decide (p.1 ≤ q.1))
    (s.sorted_intervals.map (effectivePair s.on_date now_dt))

/-- `DaySchedule.validate`: the multiple-open check, the per-interval
end-after-start messages (in sorted order), then the overlap scan. -/
def DaySchedule.validate (s : DaySchedule) (now_dt : Int) : List String :=
  (if 1 < (s.intervals.filter (fun it => it.is_open)).length
   then [openMsgStr] else []) ++
  ((s.sorted_intervals.map (effectivePair s.on_date now_dt)).filter
      (fun p => decide (p.2 ≤ p.1))).map (fun _ => endMsgStr) ++
  overlapScan (sortedEffective s now_dt)

/-- The summation loop of `total_worked_seconds`, stopping at the first
interval whose resolution raises. -/
def sumDurations (d : Nat) (now_dt : Int) (acc : Int) :
    List TimeInterval → Except String Int
  | [] => .ok acc
  | it :: rest =>
    match it.duration_seconds d now_dt with
    | .error e => .error e
    | .ok v => sumDurations d now_dt (acc + v) rest

/-- `DaySchedule.total_worked_seconds`. -/
def DaySchedule.total_worked_seconds (s : DaySchedule) (now_dt : Int) :
    Except String Int :=
  sumDurations s.on_date now_dt 0 s.intervals

/-! ## Milestone projection and recalculation (GuiController) -/

/-- `datetime.fromtimestamp` under a fixed-offset local clock, with the
local epoch taken as instant `0`; only differences of these values are
ever used, so the choice of epoch cancels. -/
def fromtimestamp (s : Int) : Int := s

/-- The module-level `_seconds_to_timedelta` helper, verbatim:
`fromtimestamp(0) - fromtimestamp(0) + (fromtimestamp(seconds) -
fromtimestamp(0))`. -/
def secondsToTimedelta (seconds : Int) : Int :=
  (fromtimestamp 0 - fromtimestamp 0) +
    (fromtimestamp seconds - fromtimestamp 0)

/-- `GuiController._ceil_to_next_hour`. -/
def ceil_to_next_hour (seconds : Int) : Int :=
  if seconds ≤ 0 then 0
  else
    let rem := seconds % 3600
    if rem = 0 then 0 else 3600 - rem

/-- The four shapes of milestone message set by
`GuiController._set_milestone_message` (the numeric payloads of the two
formatted lines). -/
inductive MilestoneReport where
  | targetInvalid : MilestoneReport
  | belowTarget (remaining : Int) (hitTime : Int) : MilestoneReport
  | atWholeHour (overtime : Int) (nextTime : Int) : MilestoneReport
  | beforeNextHour (overtime : Int) (toNext : Int)
      (nextWholeOvertime : Int) (whenTime : Int) : MilestoneReport
deriving DecidableEq, Repr

/-- `GuiController._set_milestone_message`, returning the numeric
content of the message it sets. -/
def set_milestone_message (worked target : Int) (now_dt : Int) :
    MilestoneReport :=
  if target ≤ 0 then .targetInvalid
  else if worked < target then
    let remaining := target - worked
    let hit_time := now_dt + secondsToTimedelta remaining
    .belowTarget remaining hit_time
  else
    let overtime := worked - target
    let to_next := ceil_to_next_hour overtime
    if to_next = 0 then
      .atWholeHour overtime (now_dt + secondsToTimedelta 3600)
    else
      .beforeNextHour overtime to_next (overtime + to_next)
        (now_dt + secondsToTimedelta to_next)

/-- Target parsing in `GuiController.recalculate`: on a parse error the
default `8 * 3600 + 30 * 60` is used. -/
def recalcTarget (targetText : String) : Int :=
  match parse_duration targetText with
  | .ok t => t
  | .error _ => 8 * 3600 + 30 * 60

/-- The `worked` computation of `GuiController.recalculate`: `0` when
validation produced messages, and `0` again if the total raises. -/
def recalcWorked (s : DaySchedule) (now_dt : Int) : Int :=
  if s.validate now_dt = [] then
    match s.total_worked_seconds now_dt with
    | .ok w => w
    | .error _ => 0
  else 0

/-- The `(worked, remaining, overtime)` triple computed by
`GuiController.recalculate`. -/
def recalculate (s : DaySchedule) (targetText : String) (now_dt : Int) :
    Int × Int × Int :=
  let target := recalcTarget targetText
  let worked := recalcWorked s now_dt
  (worked, max 0 (target - worked), max 0 (worked - target))

/-- One step of the decimal accumulation performed by Python `int()`
(`digitsVal`): shift and add the digit's value. -/
def digitStep (a : Nat) (c : Char) : Nat := a * 10 + (digitVal c).getD 0

/-- A canonical zero-padded `HH:MM:SS` rendering (the family of strings
claim C9 quantifies over, matching `format_hms` output for non-negative
durations). -/
def canonHMS (h m s : Nat) : String :=
  String.mk (pad2 h ++ (':' :: (pad2 m ++ (':' :: pad2 s))))

/-! ## Helper lemmas -/

theorem overlapScan_subset : ∀ (l : List (Int × Int)) (m : String),
    m ∈ overlapScan l → m = overlapMsgStr := by
  intro l
  induction l with
  | nil => intro m h; simp [overlapScan] at h
  | cons a rest ih =>
    intro m h
    cases rest with
    | nil => simp [overlapScan] at h
    | cons b rs =>
      simp only [overlapScan] at h
      split at h
      · simpa using h
      · exact ih m h

theorem overlapScan_mem_iff : ∀ l : List (Int × Int),
    overlapMsgStr ∈ overlapScan l ↔ ∃ p ∈ l.zip l.tail, p.2.1 < p.1.2 := by
  intro l
  induction l with
  | nil => simp [overlapScan]
  | cons a rest ih =>
    cases rest with
    | nil => simp [overlapScan]
    | cons b rs =>
      simp only [overlapScan, List.tail_cons, List.zip_cons_cons]
      split
      · rename_i hlt
        simp only [List.mem_singleton, true_iff]
        exact ⟨(a, b), List.mem_cons_self _ _, hlt⟩
      · rename_i hge
        rw [ih]
        simp only [List.tail_cons, List.mem_cons]
        constructor
        · rintro ⟨p, hp, hv⟩
          exact ⟨p, Or.inr hp, hv⟩
        · rintro ⟨p, hp | hp, hv⟩
          · rw [hp] at hv
            exact absurd hv hge
          · exact ⟨p, hp, hv⟩

theorem overlapScan_eq_or : ∀ l : List (Int × Int),
    overlapScan l = [] ∨ overlapScan l = [overlapMsgStr] := by
  intro l
  induction l with
  | nil => exact Or.inl rfl
  | cons a rest ih =>
    cases rest with
    | nil => exact Or.inl rfl
    | cons b rs =>
      simp only [overlapScan]
      split
      · exact Or.inr rfl
      · exact ih

theorem mem_insertLe {α : Type} (le : α → α → Bool) (x a : α) :
    ∀ l : List α, (a ∈ insertLe le x l ↔ a = x ∨ a ∈ l) := by
  intro l
  induction l with
  | nil => simp [insertLe]
  | cons b bs ih =>
    simp only [insertLe]
    split
    · simp [List.mem_cons]
    · simp only [List.mem_cons, ih]
      tauto

theorem mem_sortLe {α : Type} (le : α → α → Bool) (a : α) :
    ∀ l : List α, (a ∈ sortLe le l ↔ a ∈ l) := by
  intro l
  induction l with
  | nil => simp [sortLe]
  | cons b bs ih =>
    simp only [sortLe, mem_insertLe, ih, List.mem_cons]

theorem mem_sorted_intervals (s : DaySchedule) (it : TimeInterval) :
    it ∈ s.sorted_intervals ↔ it ∈ s.intervals :=
  mem_sortLe _ it s.intervals


theorem sumDurations_ok (d : Nat) (now_dt : Int) :
    ∀ (l : List TimeInterval) (acc : Int),
      (∀ it ∈ l, it.effective_start d < it.effective_end d now_dt) →
      sumDurations d now_dt acc l =
        .ok (acc + (l.map (fun it =>
          it.effective_end d now_dt - it.effective_start d)).sum) := by
  intro l
  induction l with
  | nil => intro acc _; simp [sumDurations]
  | cons it rest ih =>
    intro acc h
    have h1 := h it (List.mem_cons_self _ _)
    simp only [sumDurations, TimeInterval.duration_seconds]
    rw [if_neg (by omega)]
    dsimp only
    rw [ih _ (fun x hx => h x (List.mem_cons_of_mem _ hx))]
    congr 1
    simp only [List.map_cons, List.sum_cons]
    ring

/-! ## Claim theorems -/

/-- Claim C1: for every `worked ≥ target > 0` the milestone projector
computes `overtime = worked - target` and `to_next_whole_hour = 0` when
`overtime % 3600 = 0`, else `3600 - overtime % 3600`; in particular
overtime `0` and `3600` give `0`, `3599` gives `1`, `3601` gives `3599`. -/
theorem milestone_overtime_ceiling (worked target now_dt : Int)
    (ht : 0 < target) (hw : target ≤ worked) :
    (ceil_to_next_hour (worked - target) =
      if (worked - target) % 3600 = 0 then 0
      else 3600 - (worked - target) % 3600)
    ∧ (set_milestone_message worked target now_dt =
        if (worked - target) % 3600 = 0 then
          .atWholeHour (worked - target) (now_dt + 3600)
        else
          .beforeNextHour (worked - target)
            (3600 - (worked - target) % 3600)
            (worked - target + (3600 - (worked - target) % 3600))
            (now_dt + (3600 - (worked - target) % 3600)))
    ∧ ceil_to_next_hour 0 = 0 ∧ ceil_to_next_hour 3600 = 0
    ∧ ceil_to_next_hour 3599 = 1 ∧ ceil_to_next_hour 3601 = 3599 := by
  have hceil : ceil_to_next_hour (worked - target) =
      if (worked - target) % 3600 = 0 then 0
      else 3600 - (worked - target) % 3600 := by
    simp only [ceil_to_next_hour]
    split_ifs <;> omega
  refine ⟨hceil, ?_, by decide, by decide, by decide, by decide⟩
  simp only [set_milestone_message, secondsToTimedelta, fromtimestamp]
  rw [if_neg (by omega : ¬ target ≤ 0), if_neg (by omega : ¬ worked < target)]
  simp only [hceil]
  have hmodlt : (worked - target) % 3600 < 3600 := by omega
  have hmodge : 0 ≤ (worked - target) % 3600 := by omega
  split_ifs with h1 h2 h3 <;> (congr 1 <;> omega)

/-- Witness for C1 at `worked = 34201`, `target = 30600` (overtime
`3601`): to the next whole hour is `3599` seconds. -/
theorem milestone_overtime_ceiling_witness :
    (ceil_to_next_hour (34201 - 30600) =
      if (34201 - 30600 : Int) % 3600 = 0 then 0
      else 3600 - (34201 - 30600 : Int) % 3600)
    ∧ (set_milestone_message 34201 30600 0 =
        if (34201 - 30600 : Int) % 3600 = 0 then
          .atWholeHour (34201 - 30600) ((0 : Int) + 3600)
        else
          .beforeNextHour (34201 - 30600)
            (3600 - (34201 - 30600 : Int) % 3600)
            (34201 - 30600 + (3600 - (34201 - 30600 : Int) % 3600))
            ((0 : Int) + (3600 - (34201 - 30600 : Int) % 3600)))
    ∧ ceil_to_next_hour 0 = 0 ∧ ceil_to_next_hour 3600 = 0
    ∧ ceil_to_next_hour 3599 = 1 ∧ ceil_to_next_hour 3601 = 3599 :=
  milestone_overtime_ceiling 34201 30600 0 (by decide) (by decide)

/-- Claim C2: for `0 < worked < target` the milestone projector reports
`remaining = target - worked` and an ETA of `now + remaining`. -/
theorem milestone_below_target (worked target now_dt : Int)
    (h0 : 0 < worked) (h : worked < target) :
    set_milestone_message worked target now_dt =
      .belowTarget (target - worked) (now_dt + (target - worked)) := by
  simp only [set_milestone_message, secondsToTimedelta, fromtimestamp]
  rw [if_neg (by omega : ¬ target ≤ 0), if_pos h]
  congr 1
  omega

/-- Witness for C2 at worked `04:00:00`, target `08:30:00`, now
`14:00:00`: remaining `04:30:00` and ETA `18:30:00`. -/
theorem milestone_below_target_witness :
    set_milestone_message 14400 30600 50400 = .belowTarget 16200 66600 :=
  (milestone_below_target 14400 30600 50400 (by decide) (by decide)).trans
    (by decide)

/-- Claim C3: interval resolution fails exactly when the resolved
effective end is at or before the resolved effective start (an open
interval's end resolving to `now`), including `start = end`; otherwise
it returns `effective_end - effective_start`. -/
theorem duration_seconds_spec (it : TimeInterval) (d : Nat) (now_dt : Int) :
    (isOkE (it.duration_seconds d now_dt) = false ↔
      it.effective_end d now_dt ≤ it.effective_start d)
    ∧ (it.effective_start d < it.effective_end d now_dt →
        it.duration_seconds d now_dt =
          .ok (it.effective_end d now_dt - it.effective_start d))
    ∧ (it.endT = some it.start →
        isOkE (it.duration_seconds d now_dt) = false) := by
  refine ⟨?_, ?_, ?_⟩
  · simp only [TimeInterval.duration_seconds]
    split_ifs with h
    · simp [isOkE, h]
    · simp [isOkE]
      omega
  · intro h
    simp only [TimeInterval.duration_seconds]
    rw [if_neg (by omega)]
  · intro h
    simp only [TimeInterval.duration_seconds, TimeInterval.effective_end, h,
      TimeInterval.effective_start]
    simp [isOkE]

/-- Witness for C3 at a degenerate interval with `start = end =
12:00:00`: resolution fails. -/
theorem duration_seconds_spec_witness :
    isOkE (TimeInterval.duration_seconds
      ⟨⟨12, 0, 0⟩, some ⟨12, 0, 0⟩⟩ 0 0) = false :=
  (duration_seconds_spec ⟨⟨12, 0, 0⟩, some ⟨12, 0, 0⟩⟩ 0 0).2.2 rfl

/-- Claim C7: validation emits the multiple-open-intervals issue exactly
when the schedule contains two or more open intervals, regardless of
start times. -/
theorem validate_multiple_open (s : DaySchedule) (now_dt : Int) :
    openMsgStr ∈ s.validate now_dt ↔
      2 ≤ (s.intervals.filter (fun it => it.is_open)).length := by
  have hB : openMsgStr ∉
      ((s.sorted_intervals.map (effectivePair s.on_date now_dt)).filter
        (fun p => decide (p.2 ≤ p.1))).map (fun _ => endMsgStr) := by
    intro h
    rcases List.mem_map.mp h with ⟨p, _, hp⟩
    exact absurd hp.symm (by decide)
  have hC : openMsgStr ∉ overlapScan (sortedEffective s now_dt) := by
    intro h
    exact absurd (overlapScan_subset _ _ h) (by decide)
  simp only [DaySchedule.validate, List.mem_append]
  constructor
  · rintro ((h | h) | h)
    · split at h
      · rename_i hn
        omega
      · simp at h
    · exact absurd h hB
    · exact absurd h hC
  · intro h
    refine Or.inl (Or.inl ?_)
    rw [if_pos (by omega)]
    exact List.mem_singleton.mpr rfl

/-- Claim C4: after sorting resolved intervals by effective start, the
overlap issue is emitted exactly when some adjacent pair has the later
start strictly before the earlier end; overlap-checking stops at the
first such pair, so at most one overlap issue appears; touching
intervals are permitted (`09:00-12:00` with `12:00-13:00` is valid,
`09:00-12:30` with `12:00-13:00` is not). -/
theorem validate_overlap_spec (s : DaySchedule) (now_dt : Int) :
    (overlapMsgStr ∈ s.validate now_dt ↔
      ∃ p ∈ (sortedEffective s now_dt).zip (sortedEffective s now_dt).tail,
        p.2.1 < p.1.2)
    ∧ (s.validate now_dt).count overlapMsgStr ≤ 1
    ∧ DaySchedule.validate
        ⟨0, [⟨⟨9, 0, 0⟩, some ⟨12, 0, 0⟩⟩, ⟨⟨12, 0, 0⟩, some ⟨13, 0, 0⟩⟩],
          30600⟩ 0 = []
    ∧ overlapMsgStr ∈ DaySchedule.validate
        ⟨0, [⟨⟨9, 0, 0⟩, some ⟨12, 30, 0⟩⟩, ⟨⟨12, 0, 0⟩, some ⟨13, 0, 0⟩⟩],
          30600⟩ 0 := by
  have hA : overlapMsgStr ∉
      (if 1 < (s.intervals.filter (fun it => it.is_open)).length
       then [openMsgStr] else []) := by
    intro h
    split at h
    · exact absurd (List.mem_singleton.mp h) (by decide)
    · simp at h
  have hB : overlapMsgStr ∉
      ((s.sorted_intervals.map (effectivePair s.on_date now_dt)).filter
        (fun p => decide (p.2 ≤ p.1))).map (fun _ => endMsgStr) := by
    intro h
    rcases List.mem_map.mp h with ⟨p, _, hp⟩
    exact absurd hp.symm (by decide)
  refine ⟨?_, ?_, by decide, by decide⟩
  · simp only [DaySchedule.validate, List.mem_append]
    rw [overlapScan_mem_iff]
    constructor
    · rintro ((h | h) | h)
      · exact absurd h hA
      · exact absurd h hB
      · exact h
    · exact fun h => Or.inr h
  · simp only [DaySchedule.validate, List.count_append]
    rw [List.count_eq_zero.mpr hA, List.count_eq_zero.mpr hB]
    rcases overlapScan_eq_or (sortedEffective s now_dt) with h | h <;>
      rw [h] <;> simp

/-- Claim C5 (amended): for a schedule whose validation returns no
issues, the recalculated worked total is the sum over all intervals of
`effective_end - effective_start`, remaining is `max 0 (target -
worked)` and overtime is `max 0 (worked - target)`.  (The claim's
example values are corrected by `validate_total_counterexample`.) -/
theorem recalculate_valid_totals (s : DaySchedule) (targetText : String)
    (now_dt : Int) (h : s.validate now_dt = []) :
    recalculate s targetText now_dt =
      ((s.intervals.map (fun it =>
          it.effective_end s.on_date now_dt - it.effective_start s.on_date)).sum,
        max 0 (recalcTarget targetText -
          (s.intervals.map (fun it =>
            it.effective_end s.on_date now_dt - it.effective_start s.on_date)).sum),
        max 0 ((s.intervals.map (fun it =>
            it.effective_end s.on_date now_dt - it.effective_start s.on_date)).sum -
          recalcTarget targetText)) := by
  have hpos : ∀ it ∈ s.intervals,
      it.effective_start s.on_date < it.effective_end s.on_date now_dt := by
    intro it hit
    have hsplit := h
    simp only [DaySchedule.validate] at hsplit
    rw [List.append_assoc, List.append_eq_nil] at hsplit
    rw [List.append_eq_nil] at hsplit
    have hB := hsplit.2.1
    rw [List.map_eq_nil_iff] at hB
    rw [List.filter_eq_nil_iff] at hB
    have := hB (effectivePair s.on_date now_dt it)
      (List.mem_map_of_mem _ ((mem_sorted_intervals s it).mpr hit))
    simp only [effectivePair, decide_eq_true_eq] at this
    omega
  have hw : recalcWorked s now_dt =
      (s.intervals.map (fun it =>
        it.effective_end s.on_date now_dt - it.effective_start s.on_date)).sum := by
    rw [recalcWorked, if_pos h, DaySchedule.total_worked_seconds,
      sumDurations_ok s.on_date now_dt s.intervals 0 hpos]
    simp
  rw [recalculate, hw]

/-- Counterexample for C5's example: intervals `09:00-12:00` and
`13:00-17:30` with target `08:30:00` give worked `07:30:00` (27000 s),
remaining `01:00:00` and overtime `00:00:00`, not worked `08:30:00`
with remaining `00:00:00` as the claim states. -/
theorem validate_total_counterexample :
    recalculate
        ⟨0, [⟨⟨9, 0, 0⟩, some ⟨12, 0, 0⟩⟩, ⟨⟨13, 0, 0⟩, some ⟨17, 30, 0⟩⟩],
          30600⟩ "08:30:00" 0 = (27000, 3600, 0)
    ∧ recalculate
        ⟨0, [⟨⟨9, 0, 0⟩, some ⟨12, 0, 0⟩⟩, ⟨⟨13, 0, 0⟩, some ⟨17, 30, 0⟩⟩],
          30600⟩ "08:30:00" 0 ≠ (30600, 0, 0) := by
  constructor
  · decide
  · decide

/-- Witness for C5 on the claim's schedule: the theorem applies (its
validation is issue-free) and yields worked 27000, remaining 3600,
overtime 0. -/
theorem recalculate_valid_totals_witness :
    recalculate
        ⟨0, [⟨⟨9, 0, 0⟩, some ⟨12, 0, 0⟩⟩, ⟨⟨13, 0, 0⟩, some ⟨17, 30, 0⟩⟩],
          30600⟩ "08:30:00" 0 = (27000, 3600, 0) :=
  (recalculate_valid_totals
    ⟨0, [⟨⟨9, 0, 0⟩, some ⟨12, 0, 0⟩⟩, ⟨⟨13, 0, 0⟩, some ⟨17, 30, 0⟩⟩], 30600⟩
    "08:30:00" 0 (by decide)).trans (by decide)

theorem parse_duration_nonneg (t : String) (v : Int)
    (h : parse_duration t = .ok v) : 0 ≤ v := by
  simp only [parse_duration] at h
  split at h
  · exact absurd h (by simp)
  · split at h
    · exact absurd h (by simp)
    · split at h
      · exact absurd h (by simp)
      · split at h
        · exact absurd h (by simp)
        · rename_i hg
          rw [Except.ok.injEq] at h
          omega

theorem recalcTarget_nonneg (t : String) : 0 ≤ recalcTarget t := by
  rw [recalcTarget]
  split
  · rename_i v hv
    exact parse_duration_nonneg t v hv
  · norm_num

/-- Claim C6: whenever validation returns at least one issue, the
recalculated worked total is `0`, so remaining is `max 0 target` and
overtime is `0`; partial sums are never propagated. -/
theorem recalculate_invalid_zero (s : DaySchedule) (targetText : String)
    (now_dt : Int) (h : s.validate now_dt ≠ []) :
    recalculate s targetText now_dt =
      (0, max 0 (recalcTarget targetText), 0) := by
  have h0 : recalcWorked s now_dt = 0 := by
    rw [recalcWorked, if_neg h]
  have hT := recalcTarget_nonneg targetText
  rw [recalculate, h0]
  refine congrArg (Prod.mk 0) ?_
  refine congrArg₂ Prod.mk ?_ ?_ <;> omega

/-- Witness for C6 on a schedule with a zero-length interval (validation
fails): worked is reported as 0. -/
theorem recalculate_invalid_zero_witness :
    recalculate ⟨0, [⟨⟨12, 0, 0⟩, some ⟨12, 0, 0⟩⟩], 30600⟩ "wrong" 0 =
      (0, max 0 (recalcTarget "wrong"), 0) :=
  recalculate_invalid_zero ⟨0, [⟨⟨12, 0, 0⟩, some ⟨12, 0, 0⟩⟩], 30600⟩
    "wrong" 0 (by decide)

theorem parse_time_fields_pm_hour (hh mm ss : Int) (t : ClockTime)
    (h : parse_time_fields (some true) hh mm ss = .ok t) :
    12 ≤ t.hour ∧ t.hour ≤ 23 := by
  simp only [parse_time_fields] at h
  split at h
  · exact absurd h (by simp)
  · split at h
    · exact absurd h (by simp)
    · rename_i hrange
      rw [if_pos trivial] at h
      rw [Except.ok.injEq] at h
      subst h
      simp only []
      split_ifs <;> omega

theorem parse_time_fields_am_hour (hh mm ss : Int) (t : ClockTime)
    (h : parse_time_fields (some false) hh mm ss = .ok t) :
    t.hour ≤ 11 := by
  simp only [parse_time_fields] at h
  split at h
  · exact absurd h (by simp)
  · split at h
    · exact absurd h (by simp)
    · rename_i hrange
      rw [if_neg (by simp : ¬ (false = true))] at h
      rw [Except.ok.injEq] at h
      subst h
      simp only []
      split_ifs <;> omega

theorem parse_time_ok_fields (text : String) (t : ClockTime)
    (h : parse_time text = .ok t) :
    ∃ hh mm ss, parse_time_fields (stripAmPm (pyStrip text.data)).1 hh mm ss
      = .ok t := by
  simp only [parse_time] at h
  split at h
  · exact absurd h (by simp)
  · split at h
    · exact absurd h (by simp)
    · split at h
      · exact absurd h (by simp)
      · exact ⟨_, _, _, h⟩

/-- Claim C8: with a trailing am/pm marker (case-insensitive, optional
surrounding whitespace) `parse_time` fails unless the hour is in 1-12;
12 am maps to hour 0, 12 pm to hour 12, and other pm hours add 12
("9 am" gives hour 9, "9 pm" hour 21); `parse_time` rejects "25:00",
"12:60", "13 am" and the empty string. -/
theorem parse_time_ampm_spec (hh mm ss : Int) (isPm : Bool)
    (hm : 0 ≤ mm ∧ mm < 60) (hs : 0 ≤ ss ∧ ss < 60) :
    (isOkE (parse_time_fields (some isPm) hh mm ss) = true ↔
      1 ≤ hh ∧ hh ≤ 12)
    ∧ parse_time_fields (some false) 12 mm ss = .ok ⟨0, mm.toNat, ss.toNat⟩
    ∧ parse_time_fields (some true) 12 mm ss = .ok ⟨12, mm.toNat, ss.toNat⟩
    ∧ (1 ≤ hh → hh < 12 →
        parse_time_fields (some true) hh mm ss =
          .ok ⟨(hh + 12).toNat, mm.toNat, ss.toNat⟩)
    ∧ (1 ≤ hh → hh < 12 →
        parse_time_fields (some false) hh mm ss =
          .ok ⟨hh.toNat, mm.toNat, ss.toNat⟩)
    ∧ (∀ (text : String) (t : ClockTime),
        (stripAmPm (pyStrip text.data)).1 = some true →
        parse_time text = .ok t → 12 ≤ t.hour ∧ t.hour ≤ 23)
    ∧ (∀ (text : String) (t : ClockTime),
        (stripAmPm (pyStrip text.data)).1 = some false →
        parse_time text = .ok t → t.hour ≤ 11)
    ∧ parse_time "9 am" = .ok ⟨9, 0, 0⟩
    ∧ parse_time "9 pm" = .ok ⟨21, 0, 0⟩
    ∧ parse_time "12 AM" = .ok ⟨0, 0, 0⟩
    ∧ parse_time " 12:30 PM " = .ok ⟨12, 30, 0⟩
    ∧ isOkE (parse_time "25:00") = false
    ∧ isOkE (parse_time "12:60") = false
    ∧ isOkE (parse_time "13 am") = false
    ∧ isOkE (parse_time "") = false := by
  refine ⟨?_, ?_, ?_, ?_, ?_, ?_, ?_, by rfl, by rfl, by rfl,
    by rfl, by decide, by decide, by decide, by decide⟩
  · simp only [parse_time_fields]
    rw [if_neg (by omega)]
    split_ifs with h <;> cases isPm <;> simp [isOkE] <;> omega
  · simp [parse_time_fields, hm.1, hm.2, hs.1, hs.2]
  · simp [parse_time_fields, hm.1, hm.2, hs.1, hs.2]
  · intro h1 h2
    have h3 : hh < 13 := by omega
    have h4 : hh ≠ 12 := by omega
    simp [parse_time_fields, hm.1, hm.2, hs.1, hs.2, h1, h3, h4]
  · intro h1 h2
    have h3 : hh < 13 := by omega
    have h4 : hh ≠ 12 := by omega
    simp [parse_time_fields, hm.1, hm.2, hs.1, hs.2, h1, h3, h4]
  · intro text t hmk hok
    rcases parse_time_ok_fields text t hok with ⟨a, b, c, hf⟩
    rw [hmk] at hf
    exact parse_time_fields_pm_hour a b c t hf
  · intro text t hmk hok
    rcases parse_time_ok_fields text t hok with ⟨a, b, c, hf⟩
    rw [hmk] at hf
    exact parse_time_fields_am_hour a b c t hf

/-- Witness for C8 at hour 9 pm: the mapping adds 12. -/
theorem parse_time_ampm_spec_witness :
    parse_time_fields (some true) 9 0 0 = .ok ⟨(9 + 12 : Int).toNat, (0 : Int).toNat, (0 : Int).toNat⟩ :=
  (parse_time_ampm_spec 9 0 0 true (by decide) (by decide)).2.2.2.1
    (by decide) (by decide)

theorem digit_char_facts (d : Nat) (hd : d < 10) :
    digitVal (Char.ofNat (48 + d)) = some d ∧
    isSpace (Char.ofNat (48 + d)) = false ∧
    (Char.ofNat (48 + d) == ':') = false ∧
    (Char.ofNat (48 + d) == '+') = false ∧
    (Char.ofNat (48 + d) == '-') = false ∧
    (Char.ofNat (48 + d) == '_') = false ∧
    (Char.ofNat (48 + d) == 'm') = false ∧
    (Char.ofNat (48 + d) == 'M') = false := by
  interval_cases d <;> decide

theorem natToDigitsAux_spec : ∀ fuel n, n < fuel →
    natToDigitsAux fuel n ≠ [] ∧
    (∀ c ∈ natToDigitsAux fuel n, ∃ d, d < 10 ∧ c = Char.ofNat (48 + d)) ∧
    (∀ acc, (natToDigitsAux fuel n).foldl digitStep acc =
      acc * 10 ^ (natToDigitsAux fuel n).length + n) := by
  intro fuel
  induction fuel with
  | zero => intro n h; exact absurd h (Nat.not_lt_zero n)
  | succ fuel ih =>
    intro n hn
    by_cases h10 : n < 10
    · simp only [natToDigitsAux, if_pos h10]
      refine ⟨by simp, ?_, ?_⟩
      · intro c hc
        rw [List.mem_singleton] at hc
        exact ⟨n, h10, hc⟩
      · intro acc
        simp [digitStep, (digit_char_facts n h10).1]
    · have hrec := ih (n / 10) (by omega)
      obtain ⟨hne, hdig, hval⟩ := hrec
      simp only [natToDigitsAux, if_neg h10]
      refine ⟨by simp, ?_, ?_⟩
      · intro c hc
        rcases List.mem_append.mp hc with hc | hc
        · exact hdig c hc
        · rw [List.mem_singleton] at hc
          exact ⟨n % 10, by omega, hc⟩
      · intro acc
        rw [List.foldl_append, hval acc, List.length_append]
        simp only [List.foldl_cons, List.foldl_nil, digitStep,
          (digit_char_facts (n % 10) (by omega)).1, Option.getD_some,
          List.length_singleton]
        calc (acc * 10 ^ (natToDigitsAux fuel (n / 10)).length + n / 10) * 10
              + n % 10
            = acc * (10 ^ (natToDigitsAux fuel (n / 10)).length * 10)
              + (n / 10 * 10 + n % 10) := by ring
          _ = acc * 10 ^ ((natToDigitsAux fuel (n / 10)).length + 1) + n := by
              rw [pow_succ]
              congr 1
              omega

theorem digitsVal_all_digits : ∀ (l : List Char) (acc : Nat),
    (∀ c ∈ l, (digitVal c).isSome) →
    digitsVal acc l = some (l.foldl digitStep acc) := by
  intro l
  induction l with
  | nil => intro acc _; simp [digitsVal]
  | cons c cs ih =>
    intro acc hall
    have hc := hall c (List.mem_cons_self _ _)
    have hcu : (c == '_') = false := by
      cases hbe : c == '_'
      · rfl
      · rw [eq_of_beq hbe] at hc
        exact absurd hc (by decide)
    obtain ⟨v, hv⟩ := Option.isSome_iff_exists.mp hc
    rw [digitsVal.eq_def]
    dsimp only
    rw [hcu]
    rw [if_neg (by decide : ¬ (false = true))]
    rw [hv]
    dsimp only
    rw [ih (acc * 10 + v) (fun x hx => hall x (List.mem_cons_of_mem _ hx))]
    congr 1
    rw [List.foldl_cons]
    congr 1
    simp [digitStep, hv]

theorem natToDigits_facts (n : Nat) :
    natToDigits n ≠ [] ∧
    ∀ c ∈ natToDigits n,
      (digitVal c).isSome ∧ isSpace c = false ∧ (c == ':') = false ∧
      (c == '+') = false ∧ (c == '-') = false ∧ (c == 'm') = false ∧
      (c == 'M') = false := by
  obtain ⟨hne, hdig, _⟩ := natToDigitsAux_spec (n + 1) n (by omega)
  refine ⟨hne, ?_⟩
  intro c hc
  obtain ⟨d, hd, hceq⟩ := hdig c hc
  obtain ⟨f1, f2, f3, f4, f5, _, f7, f8⟩ := digit_char_facts d hd
  subst hceq
  exact ⟨by simp [f1], f2, f3, f4, f5, f7, f8⟩

theorem pyDigits_natToDigits (n : Nat) :
    pyDigits? (natToDigits n) = some n := by
  obtain ⟨hne, hdig, hval⟩ := natToDigitsAux_spec (n + 1) n (by omega)
  rw [natToDigits]
  cases hl : natToDigitsAux (n + 1) n with
  | nil => exact absurd hl hne
  | cons c cs =>
    obtain ⟨d, hd, hceq⟩ := hdig c (by rw [hl]; exact List.mem_cons_self _ _)
    have hdv : digitVal c = some d := by
      rw [hceq]; exact (digit_char_facts d hd).1
    simp only [pyDigits?]
    rw [hdv]
    dsimp only
    have hallcs : ∀ x ∈ cs, (digitVal x).isSome := by
      intro x hx
      obtain ⟨e, he, hxe⟩ := hdig x (by rw [hl]; exact List.mem_cons_of_mem _ hx)
      rw [hxe]
      simp [(digit_char_facts e he).1]
    rw [digitsVal_all_digits cs d hallcs]
    have hv0 := hval 0
    rw [hl] at hv0
    rw [List.foldl_cons] at hv0
    simp only [digitStep, hdv, Option.getD_some, Nat.zero_mul, Nat.zero_add] at hv0
    rw [hv0]

theorem pyDigits_zero_cons (n : Nat) :
    pyDigits? ('0' :: natToDigits n) = some n := by
  simp only [pyDigits?]
  rw [(by decide : digitVal '0' = some 0)]
  dsimp only
  obtain ⟨hne, hdig, hval⟩ := natToDigitsAux_spec (n + 1) n (by omega)
  have hall : ∀ x ∈ natToDigits n, (digitVal x).isSome := by
    intro x hx
    obtain ⟨e, he, hxe⟩ := hdig x hx
    rw [hxe]
    simp [(digit_char_facts e he).1]
  show digitsVal 0 (natToDigits n) = some n
  rw [digitsVal_all_digits _ 0 hall]
  have hv0 := hval 0
  simp only [Nat.zero_mul, Nat.zero_add] at hv0
  rw [natToDigits, hv0]

theorem dropWhile_eq_self_of (p : Char → Bool) :
    ∀ l : List Char, (∀ c ∈ l, p c = false) → List.dropWhile p l = l := by
  intro l h
  cases l with
  | nil => rfl
  | cons a as =>
    rw [List.dropWhile_cons, h a (List.mem_cons_self _ _)]
    simp

theorem pyStrip_eq_self (l : List Char) (h : ∀ c ∈ l, isSpace c = false) :
    pyStrip l = l := by
  rw [pyStrip, dropWhile_eq_self_of _ l h,
    dropWhile_eq_self_of _ l.reverse (fun c hc => h c (List.mem_reverse.mp hc)),
    List.reverse_reverse]

theorem splitCh_no_sep (sep : Char) :
    ∀ l : List Char, (∀ c ∈ l, (c == sep) = false) → splitCh sep l = [l] := by
  intro l
  induction l with
  | nil => intro _; rfl
  | cons c cs ih =>
    intro h
    rw [splitCh, h c (List.mem_cons_self _ _)]
    rw [if_neg (by decide : ¬ (false = true))]
    rw [ih (fun x hx => h x (List.mem_cons_of_mem _ hx))]

theorem splitCh_append (sep : Char) :
    ∀ (xs ys : List Char), (∀ c ∈ xs, (c == sep) = false) →
      splitCh sep (xs ++ sep :: ys) = xs :: splitCh sep ys := by
  intro xs
  induction xs with
  | nil =>
    intro ys _
    simp only [List.nil_append]
    rw [splitCh, if_pos (by simp)]
  | cons c cs ih =>
    intro ys h
    simp only [List.cons_append]
    rw [splitCh, h c (List.mem_cons_self _ _)]
    rw [if_neg (by decide : ¬ (false = true))]
    rw [ih ys (fun x hx => h x (List.mem_cons_of_mem _ hx))]

theorem pyInt_natToDigits (n : Nat) : pyInt? (natToDigits n) = some (n : Int) := by
  obtain ⟨hne, hfacts⟩ := natToDigits_facts n
  have hstrip : pyStrip (natToDigits n) = natToDigits n :=
    pyStrip_eq_self _ (fun c hc => (hfacts c hc).2.1)
  cases hl : natToDigits n with
  | nil => exact absurd hl hne
  | cons c cs =>
    have hcm : c ∈ natToDigits n := by rw [hl]; exact List.mem_cons_self _ _
    have hstrip2 : pyStrip (c :: cs) = c :: cs := by rw [← hl]; exact hstrip
    simp only [pyInt?]
    rw [hstrip2]
    dsimp only
    rw [(hfacts c hcm).2.2.2.1]
    rw [if_neg (by decide : ¬ (false = true))]
    rw [(hfacts c hcm).2.2.2.2.1]
    rw [if_neg (by decide : ¬ (false = true))]
    rw [← hl, pyDigits_natToDigits n]
    rfl

theorem pyInt_pad2 (n : Nat) : pyInt? (pad2 n) = some (n : Int) := by
  by_cases h10 : n < 10
  · obtain ⟨hne, hfacts⟩ := natToDigits_facts n
    have hstrip : pyStrip ('0' :: natToDigits n) = '0' :: natToDigits n := by
      refine pyStrip_eq_self _ ?_
      intro c hc
      rcases List.mem_cons.mp hc with hc | hc
      · rw [hc]; decide
      · exact (hfacts c hc).2.1
    rw [pad2, if_pos h10]
    simp only [pyInt?]
    rw [hstrip]
    dsimp only
    rw [(by decide : ('0' == '+') = false)]
    rw [if_neg (by decide : ¬ (false = true))]
    rw [(by decide : ('0' == '-') = false)]
    rw [if_neg (by decide : ¬ (false = true))]
    rw [pyDigits_zero_cons n]
    rfl
  · rw [pad2, if_neg h10]
    exact pyInt_natToDigits n

theorem pad2_facts (n : Nat) :
    pad2 n ≠ [] ∧ ∀ c ∈ pad2 n,
      isSpace c = false ∧ (c == ':') = false := by
  obtain ⟨hne, hfacts⟩ := natToDigits_facts n
  by_cases h10 : n < 10
  · rw [pad2, if_pos h10]
    refine ⟨by simp, ?_⟩
    intro c hc
    rcases List.mem_cons.mp hc with hc | hc
    · rw [hc]; exact ⟨by decide, by decide⟩
    · exact ⟨(hfacts c hc).2.1, (hfacts c hc).2.2.1⟩
  · rw [pad2, if_neg h10]
    exact ⟨hne, fun c hc => ⟨(hfacts c hc).2.1, (hfacts c hc).2.2.1⟩⟩

theorem parse_duration_canon (h m s : Nat) (hm : m < 60) (hs : s < 60) :
    parse_duration (canonHMS h m s) =
      .ok ((h : Int) * 3600 + (m : Int) * 60 + (s : Int)) := by
  obtain ⟨hneH, hfH⟩ := pad2_facts h
  obtain ⟨hneM, hfM⟩ := pad2_facts m
  obtain ⟨hneS, hfS⟩ := pad2_facts s
  have hall : ∀ c ∈ pad2 h ++ (':' :: (pad2 m ++ (':' :: pad2 s))),
      isSpace c = false := by
    intro c hc
    rcases List.mem_append.mp hc with hc | hc
    · exact (hfH c hc).1
    · rcases List.mem_cons.mp hc with hc | hc
      · rw [hc]; decide
      · rcases List.mem_append.mp hc with hc | hc
        · exact (hfM c hc).1
        · rcases List.mem_cons.mp hc with hc | hc
          · rw [hc]; decide
          · exact (hfS c hc).1
  have hstrip := pyStrip_eq_self _ hall
  have hsplit : splitCh ':' (pad2 h ++ (':' :: (pad2 m ++ (':' :: pad2 s)))) =
      [pad2 h, pad2 m, pad2 s] := by
    rw [splitCh_append ':' (pad2 h) _ (fun c hc => (hfH c hc).2)]
    rw [splitCh_append ':' (pad2 m) _ (fun c hc => (hfM c hc).2)]
    rw [splitCh_no_sep ':' (pad2 s) (fun c hc => (hfS c hc).2)]
  have hne : ¬ (pad2 h ++ (':' :: (pad2 m ++ (':' :: pad2 s))) = []) := by
    cases hp : pad2 h
    · exact absurd hp hneH
    · simp
  simp only [parse_duration]
  rw [show (canonHMS h m s).data =
    pad2 h ++ (':' :: (pad2 m ++ (':' :: pad2 s))) from rfl]
  rw [hstrip, if_neg hne, hsplit]
  rw [if_neg (by simp : ¬ (3 < ([pad2 h, pad2 m, pad2 s] :
    List (List Char)).length))]
  simp only [durComponents]
  rw [pyInt_pad2 h, pyInt_pad2 m, pyInt_pad2 s]
  dsimp only
  rw [if_neg (by omega)]

theorem format_hms_canon (h m s : Nat) (hm : m < 60) (hs : s < 60) :
    format_hms ((h : Int) * 3600 + (m : Int) * 60 + (s : Int)) =
      canonHMS h m s := by
  have h1 : ((h : Int) * 3600 + (m : Int) * 60 + (s : Int)).natAbs =
      h * 3600 + m * 60 + s := by omega
  have hnn : ¬ ((h : Int) * 3600 + (m : Int) * 60 + (s : Int) < 0) := by
    omega
  rw [format_hms, if_neg hnn, h1]
  rw [(by omega : (h * 3600 + m * 60 + s) / 3600 = h)]
  rw [(by omega : (h * 3600 + m * 60 + s) % 3600 / 60 = m)]
  rw [(by omega : (h * 3600 + m * 60 + s) % 60 = s)]
  rw [canonHMS, List.nil_append]

/-- Claim C9: composing `parse_duration` then `format_hms` is the
identity on canonical zero-padded `HH:MM:SS` strings with minutes and
seconds in 0-59; in particular
`format_duration(parse_duration("08:30:00")) = "08:30:00"`. -/
theorem parse_format_roundtrip (h m s : Nat) (hm : m < 60) (hs : s < 60) :
    parse_duration (canonHMS h m s) =
      .ok ((h : Int) * 3600 + (m : Int) * 60 + (s : Int))
    ∧ format_hms ((h : Int) * 3600 + (m : Int) * 60 + (s : Int)) =
      canonHMS h m s
    ∧ Except.map format_hms (parse_duration (canonHMS h m s)) =
      .ok (canonHMS h m s) := by
  refine ⟨parse_duration_canon h m s hm hs, format_hms_canon h m s hm hs, ?_⟩
  rw [parse_duration_canon h m s hm hs]
  rw [show Except.map format_hms
      (Except.ok (ε := String) ((h : Int) * 3600 + (m : Int) * 60 + (s : Int)))
    = Except.ok (format_hms ((h : Int) * 3600 + (m : Int) * 60 + (s : Int)))
    from rfl]
  rw [format_hms_canon h m s hm hs]

/-- Witness for C9 on the claim's example string. -/
theorem parse_format_roundtrip_witness :
    Except.map format_hms (parse_duration "08:30:00") = .ok "08:30:00" := by
  have h := (parse_format_roundtrip 8 30 0 (by decide) (by decide)).2.2
  rw [(by decide : canonHMS 8 30 0 = "08:30:00")] at h
  exact h

theorem stripAmPm_none (l : List Char) (c : Char) (cs : List Char)
    (hrev : l.reverse.dropWhile isSpace = c :: cs)
    (hm : (c == 'm') = false) (hM : (c == 'M') = false) :
    stripAmPm l = (none, l) := by
  simp only [stripAmPm]
  rw [hrev]
  cases cs with
  | nil => rfl
  | cons a as => simp [hm, hM]

theorem parse_time_digits_colon (h : Nat) (hlt : h < 24) :
    parse_time (String.mk (natToDigits h ++ [':'])) = .ok ⟨h, 0, 0⟩ := by
  obtain ⟨hne, hfacts⟩ := natToDigits_facts h
  have hall : ∀ c ∈ natToDigits h ++ [':'], isSpace c = false := by
    intro c hc
    rcases List.mem_append.mp hc with hc | hc
    · exact (hfacts c hc).2.1
    · rw [List.mem_singleton] at hc; rw [hc]; decide
  have hstrip := pyStrip_eq_self _ hall
  have hneL : ¬ (natToDigits h ++ [':'] = []) := by simp
  have hrev : (natToDigits h ++ [':']).reverse.dropWhile isSpace =
      ':' :: (natToDigits h).reverse := by
    rw [List.reverse_append]
    rw [show ([':'] : List Char).reverse ++ (natToDigits h).reverse =
      ':' :: (natToDigits h).reverse from rfl]
    rw [List.dropWhile_cons, (by decide : isSpace ':' = false)]
    simp
  have hampm := stripAmPm_none _ ':' _ hrev (by decide) (by decide)
  have hsplit : splitCh ':' (natToDigits h ++ [':']) =
      [natToDigits h, []] := by
    rw [show natToDigits h ++ [':'] = natToDigits h ++ ':' :: [] from rfl]
    rw [splitCh_append ':' _ [] (fun c hc => (hfacts c hc).2.2.1)]
    rfl
  simp only [parse_time]
  rw [hstrip, if_neg hneL, hampm]
  dsimp only
  rw [hsplit]
  rw [if_neg (by simp : ¬ (3 < ([natToDigits h, []] :
    List (List Char)).length))]
  simp only [timeComponents]
  rw [if_pos trivial, pyInt_natToDigits h]
  dsimp only
  simp only [parse_time_fields]
  rw [if_neg (by omega), if_neg (by omega)]
  simp

theorem parse_time_digits_two_colons (h : Nat) (hlt : h < 24) :
    parse_time (String.mk (natToDigits h ++ [':', ':'])) = .ok ⟨h, 0, 0⟩ := by
  obtain ⟨hne, hfacts⟩ := natToDigits_facts h
  have hall : ∀ c ∈ natToDigits h ++ [':', ':'], isSpace c = false := by
    intro c hc
    rcases List.mem_append.mp hc with hc | hc
    · exact (hfacts c hc).2.1
    · rcases List.mem_cons.mp hc with hc | hc
      · rw [hc]; decide
      · rw [List.mem_singleton] at hc; rw [hc]; decide
  have hstrip := pyStrip_eq_self _ hall
  have hneL : ¬ (natToDigits h ++ [':', ':'] = []) := by simp
  have hrev : (natToDigits h ++ [':', ':']).reverse.dropWhile isSpace =
      ':' :: ':' :: (natToDigits h).reverse := by
    rw [List.reverse_append]
    rw [show ([':', ':'] : List Char).reverse ++ (natToDigits h).reverse =
      ':' :: ':' :: (natToDigits h).reverse from rfl]
    rw [List.dropWhile_cons, (by decide : isSpace ':' = false)]
    simp
  have hampm := stripAmPm_none _ ':' _ hrev (by decide) (by decide)
  have hsplit : splitCh ':' (natToDigits h ++ [':', ':']) =
      [natToDigits h, [], []] := by
    rw [show natToDigits h ++ [':', ':'] = natToDigits h ++ ':' :: [':']
      from rfl]
    rw [splitCh_append ':' _ [':'] (fun c hc => (hfacts c hc).2.2.1)]
    rfl
  simp only [parse_time]
  rw [hstrip, if_neg hneL, hampm]
  dsimp only
  rw [hsplit]
  rw [if_neg (by simp : ¬ (3 < ([natToDigits h, [], []] :
    List (List Char)).length))]
  simp only [timeComponents]
  rw [if_pos trivial, pyInt_natToDigits h]
  dsimp only
  simp only [parse_time_fields]
  rw [if_neg (by omega), if_neg (by omega)]
  simp

theorem parse_duration_digits_colon_fail (h : Nat) :
    isOkE (parse_duration (String.mk (natToDigits h ++ [':']))) = false := by
  obtain ⟨hne, hfacts⟩ := natToDigits_facts h
  have hall : ∀ c ∈ natToDigits h ++ [':'], isSpace c = false := by
    intro c hc
    rcases List.mem_append.mp hc with hc | hc
    · exact (hfacts c hc).2.1
    · rw [List.mem_singleton] at hc; rw [hc]; decide
  have hstrip := pyStrip_eq_self _ hall
  have hneL : ¬ (natToDigits h ++ [':'] = []) := by simp
  have hsplit : splitCh ':' (natToDigits h ++ [':']) =
      [natToDigits h, []] := by
    rw [show natToDigits h ++ [':'] = natToDigits h ++ ':' :: [] from rfl]
    rw [splitCh_append ':' _ [] (fun c hc => (hfacts c hc).2.2.1)]
    rfl
  simp only [parse_duration]
  rw [hstrip, if_neg hneL, hsplit]
  rw [if_neg (by simp : ¬ (3 < ([natToDigits h, []] :
    List (List Char)).length))]
  simp only [durComponents]
  rw [pyInt_natToDigits h, (by rfl : pyInt? ([] : List Char) = none)]
  rfl

theorem parse_duration_digits_two_colons_fail (h : Nat) :
    isOkE (parse_duration (String.mk (natToDigits h ++ [':', ':']))) = false := by
  obtain ⟨hne, hfacts⟩ := natToDigits_facts h
  have hall : ∀ c ∈ natToDigits h ++ [':', ':'], isSpace c = false := by
    intro c hc
    rcases List.mem_append.mp hc with hc | hc
    · exact (hfacts c hc).2.1
    · rcases List.mem_cons.mp hc with hc | hc
      · rw [hc]; decide
      · rw [List.mem_singleton] at hc; rw [hc]; decide
  have hstrip := pyStrip_eq_self _ hall
  have hneL : ¬ (natToDigits h ++ [':', ':'] = []) := by simp
  have hsplit : splitCh ':' (natToDigits h ++ [':', ':']) =
      [natToDigits h, [], []] := by
    rw [show natToDigits h ++ [':', ':'] = natToDigits h ++ ':' :: [':']
      from rfl]
    rw [splitCh_append ':' _ [':'] (fun c hc => (hfacts c hc).2.2.1)]
    rfl
  simp only [parse_duration]
  rw [hstrip, if_neg hneL, hsplit]
  rw [if_neg (by simp : ¬ (3 < ([natToDigits h, [], []] :
    List (List Char)).length))]
  simp only [durComponents]
  rw [pyInt_natToDigits h, (by rfl : pyInt? ([] : List Char) = none)]
  rfl

/-- Claim C10: a time string with empty minute or second components
between or after the ':' separators (such as "9:" or "9::") is accepted
by `parse_time` with the empty components defaulting to 0, while
`parse_duration` fails on the same inputs. -/
theorem parse_time_empty_component_default (h : Nat) (hlt : h < 24) :
    parse_time (String.mk (natToDigits h ++ [':'])) = .ok ⟨h, 0, 0⟩
    ∧ parse_time (String.mk (natToDigits h ++ [':', ':'])) = .ok ⟨h, 0, 0⟩
    ∧ isOkE (parse_duration (String.mk (natToDigits h ++ [':']))) = false
    ∧ isOkE (parse_duration (String.mk (natToDigits h ++ [':', ':']))) = false
    ∧ parse_time "9:" = .ok ⟨9, 0, 0⟩
    ∧ parse_duration "9:" = .error "Non-numeric duration component" :=
  ⟨parse_time_digits_colon h hlt, parse_time_digits_two_colons h hlt,
    parse_duration_digits_colon_fail h, parse_duration_digits_two_colons_fail h,
    by rfl, by rfl⟩

/-- Witness for C10 at hour 9: "9:" parses as a time to 09:00:00 and is
rejected as a duration. -/
theorem parse_time_empty_component_default_witness :
    parse_time (String.mk (natToDigits 9 ++ [':'])) = .ok ⟨9, 0, 0⟩ :=
  (parse_time_empty_component_default 9 (by decide)).1
